import Mathlib

/-!
Shallow embedding of the notebook editor (`NotebookEditor` component) and the
editing state machine it defines: the cell data model, the active/selection
state, the cell lifecycle operations, and the drag-reorder drop handler.

Cell identifiers are modelled as natural numbers (in the source they are opaque
unique strings; nothing below depends on their representation). The formal cell
content type `T` is kept as a type parameter, exactly as in the source.
JavaScript `Array.prototype.splice` index clamping is modelled explicitly.
-/

/-- Cell identifiers (`CellId` in the source): opaque unique tokens. -/
abbrev CellId := Nat

/-- The tagged union of cell kinds: `stem` (empty placeholder), `rich-text`
(free-form text content), and `formal` (typed content `T`). -/
inductive CellTag (T : Type) where
  | stem : CellTag T
  | richText (content : String) : CellTag T
  | formal (content : T) : CellTag T
deriving DecidableEq

/-- A notebook cell: a globally unique id together with its tagged content. -/
structure Cell (T : Type) where
  id : CellId
  tag : CellTag T
deriving DecidableEq

/-- Modelled from the spec: `newStemCell` from the types module (not part of the
reviewed excerpt) creates an empty placeholder `stem` cell with a freshly
generated unique id; the generated id is passed explicitly here. -/
def newStemCell (T : Type) (fresh : CellId) : Cell T :=
  { id := fresh, tag := CellTag.stem }

/-- Modelled from the spec: `newRichTextCell` from the types module (not part of
the reviewed excerpt) creates a rich-text cell with empty content and a freshly
generated unique id; the generated id is passed explicitly here. -/
def newRichTextCell (T : Type) (fresh : CellId) : Cell T :=
  { id := fresh, tag := CellTag.richText "" }

/-- The editor state visible to the claims: the notebook's ordered cell
sequence (owned by the shared document) together with the ephemeral
`CellsState` (`activeCell` index, possibly `-1`, and the id-based
`selectedCells` set). -/
structure EditorState (T : Type) where
  cells : List (Cell T)
  activeCell : Int
  selectedCells : Finset CellId
deriving DecidableEq

/-- JavaScript `splice` start-index normalization: a negative index counts from
the end (clamped to `0`), a nonnegative index is clamped to the length. -/
def jsSpliceIndex (len : Nat) (k : Int) : Nat :=
  if k < 0 then ((len : Int) + k).toNat else min k.toNat len

/-- `cells.splice(k, 0, c)`: insert `c` at the normalized index `k`. -/
def spliceInsert {α : Type} (l : List α) (k : Int) (c : α) : List α :=
  let n := jsSpliceIndex l.length k
  l.take n ++ c :: l.drop n

/-- `cells.splice(k, 1)`: remove one element at the normalized index `k`. -/
def spliceRemove1 {α : Type} (l : List α) (k : Int) : List α :=
  let n := jsSpliceIndex l.length k
  l.take n ++ l.drop (n + 1)

/-- `setActiveCell(i)`: sets `activeCell = i` and clears `selectedCells`. -/
def setActiveCell {T : Type} (i : Int) (s : EditorState T) : EditorState T :=
  { s with activeCell := i, selectedCells := ∅ }

/-- `setActiveCellViaFocus(i)`: sets `activeCell = i` only; the selection is
untouched. -/
def setActiveCellViaFocus {T : Type} (i : Int) (s : EditorState T) : EditorState T :=
  { s with activeCell := i }

/-- `toggleCellSelection(cellId)`: removes the id from the selection if present,
otherwise adds it (the DOM text-selection clearing side effect of
`setSelectedCells` is outside the model). -/
def toggleCellSelection {T : Type} (cellId : CellId) (s : EditorState T) : EditorState T :=
  { s with
    selectedCells :=
      if cellId ∈ s.selectedCells then s.selectedCells.erase cellId
      else insert cellId s.selectedCells }

/-- `setSelectedCells(ids)` with a plain set argument: replaces the selection. -/
def setSelectedCells {T : Type} (ids : Finset CellId) (s : EditorState T) : EditorState T :=
  { s with selectedCells := ids }

/-- `addAfterActiveCell(cell)`: splice the cell in at `activeCell + 1`, then
`setActiveCell(activeCell + 1)` (the signal read both times is the value from
before the call). -/
def addAfterActiveCell {T : Type} (cell : Cell T) (s : EditorState T) : EditorState T :=
  setActiveCell (s.activeCell + 1)
    { s with cells := spliceInsert s.cells (s.activeCell + 1) cell }

/-- `replaceCellWith(i, cell)`: `nb.cells[i] = cell`, overwriting in place; a
negative or out-of-range index changes no list element. -/
def replaceCellWith {T : Type} (i : Int) (cell : Cell T) (s : EditorState T) : EditorState T :=
  { s with cells := if 0 ≤ i then s.cells.set i.toNat cell else s.cells }

/-- The lookup `props.notebook.cells[activeCell()]`: `none` when `activeCell`
is negative or past the end (JavaScript indexing yields `undefined` there). -/
def cellAtActive {T : Type} (s : EditorState T) : Option (Cell T) :=
  if s.activeCell < 0 then none else s.cells[s.activeCell.toNat]?

/-- `addOrReplaceActiveCell(cell)`: replace in place when the active position
holds a `stem` cell, otherwise (rich-text/formal active cell, or no active
cell) insert after the active cell. -/
def addOrReplaceActiveCell {T : Type} (cell : Cell T) (s : EditorState T) : EditorState T :=
  match cellAtActive s with
  | some c =>
    match c.tag with
    | CellTag.formal _ => addAfterActiveCell cell s
    | CellTag.richText _ => addAfterActiveCell cell s
    | CellTag.stem => replaceCellWith s.activeCell cell s
  | none => addAfterActiveCell cell s

/-- `appendCell(cell)`: push at the end, then `setActiveCell(nb.cells.length - 1)`
where the length is read after the push. -/
def appendCell {T : Type} (cell : Cell T) (s : EditorState T) : EditorState T :=
  setActiveCell ((s.cells.length + 1 : Nat) - 1 : Int)
    { s with cells := s.cells ++ [cell] }

/-- Per-cell action `activateAbove`, bound at render index `i`:
`i > 0 && setActiveCell(i - 1)`. -/
def activateAbove {T : Type} (i : Nat) (s : EditorState T) : EditorState T :=
  if 0 < i then setActiveCell ((i : Int) - 1) s else s

/-- Per-cell action `activateBelow`, bound at render index `i`:
`i < n - 1 && setActiveCell(i + 1)` with `n` the current cell count. -/
def activateBelow {T : Type} (i : Nat) (s : EditorState T) : EditorState T :=
  if (i : Int) < (s.cells.length : Int) - 1 then setActiveCell ((i : Int) + 1) s else s

/-- Per-cell action `createAbove`: splice a new stem cell in at `i`, then
`setActiveCell(i)`. -/
def createAbove {T : Type} (fresh : CellId) (i : Nat) (s : EditorState T) : EditorState T :=
  setActiveCell (i : Int)
    { s with cells := spliceInsert s.cells (i : Int) (newStemCell T fresh) }

/-- Per-cell action `createBelow`: splice a new stem cell in at `i + 1`, then
`setActiveCell(i + 1)`. -/
def createBelow {T : Type} (fresh : CellId) (i : Nat) (s : EditorState T) : EditorState T :=
  setActiveCell ((i : Int) + 1)
    { s with cells := spliceInsert s.cells ((i : Int) + 1) (newStemCell T fresh) }

/-- Per-cell action `deleteBackward`: remove the cell at `i`, then
`setActiveCell(i - 1)`. -/
def deleteBackward {T : Type} (i : Nat) (s : EditorState T) : EditorState T :=
  setActiveCell ((i : Int) - 1) { s with cells := spliceRemove1 s.cells (i : Int) }

/-- Per-cell action `deleteForward`: remove the cell at `i`, then
`setActiveCell(i)`. -/
def deleteForward {T : Type} (i : Nat) (s : EditorState T) : EditorState T :=
  setActiveCell (i : Int) { s with cells := spliceRemove1 s.cells (i : Int) }

/-- Per-cell action `hasFocused`: `setActiveCellViaFocus(i)`. -/
def hasFocused {T : Type} (i : Nat) (s : EditorState T) : EditorState T :=
  setActiveCellViaFocus (i : Int) s

/-- The coarse closest edge of the drop target's hit-box along the notebook's
vertical axis: `before` is the leading ("top") edge, `after` the trailing
("bottom") edge. -/
inductive Edge where
  | before : Edge
  | after : Edge
deriving DecidableEq

/-- Modelled from the spec: `getReorderDestinationIndex` is imported from the
drag-and-drop library, not part of this repository; the spec describes it as
the standard reorder-destination rule computed from the source index, the
target index, and the closest edge, "with the source's own removal accounted
for so indices after removal are not off-by-one". Moving forward lands at the
target (edge `after`) or just before it (edge `before`); moving backward lands
just after the target (edge `after`) or at it (edge `before`); a drop on the
source itself or with no edge information degenerates as stated. -/
def getReorderDestinationIndex (startIndex indexOfTarget : Nat)
    (closestEdgeOfTarget : Option Edge) : Nat :=
  if startIndex = indexOfTarget then startIndex
  else
    match closestEdgeOfTarget with
    | none => indexOfTarget
    | some e =>
      if startIndex < indexOfTarget then
        match e with
        | Edge.after => indexOfTarget
        | Edge.before => indexOfTarget - 1
      else
        match e with
        | Edge.after => indexOfTarget + 1
        | Edge.before => indexOfTarget

/-- A drag payload recognized by `isCellDragData`: the dragged cell's id, plus
the closest-edge datum that `extractClosestEdge` reads off a drop target's
payload. An unrecognized payload is modelled as `Option.none` at the use
sites. -/
structure CellDragData where
  cellId : CellId
  closestEdge : Option Edge
deriving DecidableEq

/-- `cells.findIndex((cell) => cell.id === cid)`: the first index whose cell
has id `cid`, or `-1` if there is none. -/
def findIndexById {T : Type} (cells : List (Cell T)) (cid : CellId) : Int :=
  match cells with
  | [] => -1
  | c :: rest =>
    if c.id = cid then 0
    else
      let r := findIndexById rest cid
      if r < 0 then -1 else r + 1

/-- The drag monitor's `canMonitor` predicate: the dragged payload is cell drag
data and its id is still a member of the current sequence. -/
def canMonitor {T : Type} (s : EditorState T) (source : Option CellDragData) : Bool :=
  match source with
  | some sd => s.cells.any fun c => c.id = sd.cellId
  | none => false

/-- The drop handler `onDrop`: `source` is the dragged payload and `target` the
innermost drop target's payload, each `none` when absent or not recognized as
cell drag data. Both ids are resolved against the current sequence; if either
lookup fails the handler returns without mutating. Otherwise the cell is
spliced out at the source index and a value copy of it (`deepCopyJSON`, the
identity on immutable values here) is spliced in at the computed destination,
in one transaction. The source index was found, so the removal lookup cannot
miss and its fallback default is never used. -/
def onDrop {T : Type} (s : EditorState T) (source target : Option CellDragData) :
    EditorState T :=
  match target, source with
  | some td, some sd =>
    let sourceIndex := findIndexById s.cells sd.cellId
    let targetIndex := findIndexById s.cells td.cellId
    if sourceIndex < 0 ∨ targetIndex < 0 then s
    else
      let finalIndex :=
        getReorderDestinationIndex sourceIndex.toNat targetIndex.toNat td.closestEdge
      let cell := (s.cells[sourceIndex.toNat]?).getD (newStemCell T 0)
      { s with
        cells := spliceInsert (spliceRemove1 s.cells sourceIndex) (finalIndex : Int) cell }
  | _, _ => s

/-- A cell constructor: name, optional description, optional keyboard shortcut,
and the factory. The factory is `() => Cell` in the source and generates a
fresh id; the generated id is passed explicitly here. -/
structure CellConstructor (T : Type) where
  name : String
  description : Option String
  shortcut : Option (List String)
  construct : CellId → Cell T

/-- A command-palette completion derived from a constructor. -/
structure Completion (T : Type) where
  name : String
  description : Option String
  shortcut : Option (List String)
  onComplete : CellId → EditorState T → EditorState T

/-- `cellShortcutModifier`: platform-specific modifier key, `Control` on Mac
and `Alt` elsewhere. -/
def cellShortcutModifier (isMac : Bool) : String :=
  if isMac then "Control" else "Alt"

/-- The built-in rich-text constructor, first entry of `cellConstructors()`. -/
def textCellConstructor (T : Type) (isMac : Bool) : CellConstructor T :=
  { name := "Text"
    description := some "Start writing text"
    shortcut := some [cellShortcutModifier isMac, "T"]
    construct := newRichTextCell T }

/-- `cellConstructors()`: the built-in rich-text constructor prepended to the
caller-supplied list `props.cellConstructors`. -/
def cellConstructors (T : Type) (isMac : Bool) (user : List (CellConstructor T)) :
    List (CellConstructor T) :=
  textCellConstructor T isMac :: user

/-- `insertCommands()`: one completion per constructor, completing with
`addOrReplaceActiveCell(cc.construct())`. -/
def insertCommands (T : Type) (isMac : Bool) (user : List (CellConstructor T)) :
    List (Completion T) :=
  (cellConstructors T isMac user).map fun cc =>
    { name := cc.name
      description := cc.description
      shortcut := cc.shortcut
      onComplete := fun fresh s => addOrReplaceActiveCell (cc.construct fresh) s }

/-- `replaceCommands(i)`: one completion per constructor, completing with
`replaceCellWith(i, cc.construct())`. -/
def replaceCommands (T : Type) (isMac : Bool) (user : List (CellConstructor T))
    (i : Nat) : List (Completion T) :=
  (cellConstructors T isMac user).map fun cc =>
    { name := cc.name
      description := cc.description
      shortcut := cc.shortcut
      onComplete := fun fresh s => replaceCellWith (i : Int) (cc.construct fresh) s }

/-! ### Basic splice lemmas -/

theorem jsSpliceIndex_ofNat (len k : Nat) : jsSpliceIndex len (k : Int) = min k len := by
  simp [jsSpliceIndex]

theorem jsSpliceIndex_le (len : Nat) (k : Int) : jsSpliceIndex len k ≤ len := by
  unfold jsSpliceIndex
  split <;> omega

theorem spliceInsert_ofNat {α : Type} (l : List α) (k : Nat) (c : α) (hk : k ≤ l.length) :
    spliceInsert l (k : Int) c = l.take k ++ c :: l.drop k := by
  unfold spliceInsert
  rw [jsSpliceIndex_ofNat, min_eq_left hk]

theorem spliceRemove1_ofNat {α : Type} (l : List α) (k : Nat) (hk : k ≤ l.length) :
    spliceRemove1 l (k : Int) = l.take k ++ l.drop (k + 1) := by
  unfold spliceRemove1
  rw [jsSpliceIndex_ofNat, min_eq_left hk]

theorem spliceInsert_length {α : Type} (l : List α) (k : Int) (c : α) :
    (spliceInsert l k c).length = l.length + 1 := by
  have h := jsSpliceIndex_le l.length k
  simp only [spliceInsert, List.length_append, List.length_cons, List.length_take,
    List.length_drop]
  omega

theorem spliceInsert_getElem_self {α : Type} (l : List α) (n : Nat) (c : α)
    (hn : n ≤ l.length) :
    (spliceInsert l (n : Int) c)[n]? = some c := by
  rw [spliceInsert_ofNat l n c hn,
    List.getElem?_append_right (by rw [List.length_take]; omega)]
  simp [List.length_take, min_eq_left hn]

theorem spliceInsert_of_ge {α : Type} (l : List α) (k : Int) (c : α)
    (hk : (l.length : Int) ≤ k) :
    spliceInsert l k c = l ++ [c] := by
  have h0 : ¬ k < 0 := by omega
  have hmin : min k.toNat l.length = l.length := by omega
  show l.take (jsSpliceIndex l.length k) ++ c :: l.drop (jsSpliceIndex l.length k) = l ++ [c]
  unfold jsSpliceIndex
  rw [if_neg h0, hmin, List.take_length, List.drop_length]

/-! ### Claim theorems: active/selection state machine -/

/-- C5: for every prior state and index `i`, `setActiveCell(i)` results in
`activeCell = i` with an empty selection, while `setActiveCellViaFocus(i)`
results in `activeCell = i` and leaves `selectedCells` exactly as before. -/
theorem setActiveCell_focus_spec {T : Type} (s : EditorState T) (i : Int) :
    (setActiveCell i s).activeCell = i ∧
    (setActiveCell i s).selectedCells = ∅ ∧
    (setActiveCellViaFocus i s).activeCell = i ∧
    (setActiveCellViaFocus i s).selectedCells = s.selectedCells :=
  ⟨rfl, rfl, rfl, rfl⟩

/-- C6: `toggleCellSelection(id)` applied twice in succession returns the
whole editor state, and in particular the selection set, to its original
value: toggling is an involution. -/
theorem toggleCellSelection_involutive {T : Type} (cellId : CellId) (s : EditorState T) :
    toggleCellSelection cellId (toggleCellSelection cellId s) = s := by
  cases s with
  | mk cells active sel =>
    by_cases h : cellId ∈ sel
    · simp [toggleCellSelection, h, Finset.not_mem_erase, Finset.insert_erase]
    · simp [toggleCellSelection, h, Finset.erase_insert]

/-- C10: every structural lifecycle operation that repositions the active cell
(`addAfterActiveCell`, `appendCell`, `createAbove`, `createBelow`,
`deleteBackward`, `deleteForward`) routes through `setActiveCell` and hence
leaves `selectedCells` empty, for every prior selection. -/
theorem lifecycleOps_clear_selection {T : Type} (s : EditorState T) (cell : Cell T)
    (fresh : CellId) (i : Nat) :
    (addAfterActiveCell cell s).selectedCells = ∅ ∧
    (appendCell cell s).selectedCells = ∅ ∧
    (createAbove fresh i s).selectedCells = ∅ ∧
    (createBelow fresh i s).selectedCells = ∅ ∧
    (deleteBackward i s).selectedCells = ∅ ∧
    (deleteForward i s).selectedCells = ∅ :=
  ⟨rfl, rfl, rfl, rfl, rfl, rfl⟩

/-- C8: `activateAbove`/`activateBelow` never mutate the cell sequence, are
no-ops (on the entire state) at the first and last index respectively, and
otherwise move `activeCell` by `-1`/`+1` when invoked from the active cell. -/
theorem activateAbove_activateBelow_spec {T : Type} (s : EditorState T) (i : Nat) :
    (activateAbove i s).cells = s.cells ∧
    (activateBelow i s).cells = s.cells ∧
    (i = 0 → activateAbove i s = s) ∧
    (i + 1 = s.cells.length → activateBelow i s = s) ∧
    (s.activeCell = (i : Int) → 0 < i →
      (activateAbove i s).activeCell = s.activeCell - 1) ∧
    (s.activeCell = (i : Int) → (i : Int) < (s.cells.length : Int) - 1 →
      (activateBelow i s).activeCell = s.activeCell + 1) := by
  refine ⟨?_, ?_, ?_, ?_, ?_, ?_⟩
  · unfold activateAbove
    split <;> rfl
  · unfold activateBelow
    split <;> rfl
  · intro h
    subst h
    simp [activateAbove]
  · intro h
    unfold activateBelow
    rw [if_neg (by omega)]
  · intro ha hi
    unfold activateAbove
    rw [if_pos hi]
    simp [setActiveCell, ha]
  · intro ha hi
    unfold activateBelow
    rw [if_pos hi]
    simp [setActiveCell, ha]

/-- Witness for C8 at concrete states: no-ops at the bounds, `±1` moves inside
them. -/
theorem activateAbove_activateBelow_spec_witness :
    activateAbove 0 (⟨[⟨0, CellTag.stem⟩], 0, ∅⟩ : EditorState Unit) =
      ⟨[⟨0, CellTag.stem⟩], 0, ∅⟩ ∧
    activateBelow 0 (⟨[⟨0, CellTag.stem⟩], 0, ∅⟩ : EditorState Unit) =
      ⟨[⟨0, CellTag.stem⟩], 0, ∅⟩ ∧
    (activateAbove 1
      (⟨[⟨0, CellTag.stem⟩, ⟨1, CellTag.stem⟩], 1, ∅⟩ : EditorState Unit)).activeCell = 0 ∧
    (activateBelow 0
      (⟨[⟨0, CellTag.stem⟩, ⟨1, CellTag.stem⟩], 0, ∅⟩ : EditorState Unit)).activeCell = 1 := by
  refine ⟨?_, ?_, ?_, ?_⟩
  · exact (activateAbove_activateBelow_spec _ 0).2.2.1 rfl
  · exact (activateAbove_activateBelow_spec _ 0).2.2.2.1 (by decide)
  · have h := (activateAbove_activateBelow_spec
      (⟨[⟨0, CellTag.stem⟩, ⟨1, CellTag.stem⟩], 1, ∅⟩ : EditorState Unit) 1).2.2.2.2.1
      (by decide) (by decide)
    simpa using h
  · have h := (activateAbove_activateBelow_spec
      (⟨[⟨0, CellTag.stem⟩, ⟨1, CellTag.stem⟩], 0, ∅⟩ : EditorState Unit) 0).2.2.2.2.2
      (by decide) (by decide)
    simpa using h

/-! ### Claim theorems: deletion -/

/-- C4: `deleteBackward` at `i < len` removes exactly the cell at index `i`
and sets `activeCell = i - 1`; in particular at `i = 0` it leaves
`activeCell = -1`. -/
theorem deleteBackward_spec {T : Type} (s : EditorState T) (i : Nat)
    (hi : i < s.cells.length) :
    (deleteBackward i s).cells = s.cells.take i ++ s.cells.drop (i + 1) ∧
    (deleteBackward i s).cells.length = s.cells.length - 1 ∧
    (deleteBackward i s).activeCell = (i : Int) - 1 ∧
    (i = 0 → (deleteBackward i s).activeCell = -1) := by
  have hr : spliceRemove1 s.cells (i : Int) = s.cells.take i ++ s.cells.drop (i + 1) :=
    spliceRemove1_ofNat _ _ (le_of_lt hi)
  refine ⟨hr, ?_, rfl, ?_⟩
  · show (spliceRemove1 s.cells (i : Int)).length = _
    rw [hr]
    simp only [List.length_append, List.length_take, List.length_drop]
    omega
  · intro h
    subst h
    rfl

/-- Witness for C4: deleting the only cell backward leaves `activeCell = -1`. -/
theorem deleteBackward_spec_witness :
    0 < ([⟨0, CellTag.stem⟩] : List (Cell Unit)).length ∧
    (deleteBackward 0 (⟨[⟨0, CellTag.stem⟩], 0, ∅⟩ : EditorState Unit)).activeCell = -1 :=
  ⟨by decide, (deleteBackward_spec _ 0 (by decide)).2.2.2 rfl⟩

/-- C1 counterexample: deleting the only cell with `deleteForward` at `i = 0`
leaves the notebook empty with `activeCell = 0`, not `-1` as the claim states
(the code sets `activeCell = i` with no clamping to the post-deletion range). -/
theorem deleteForward_counterexample :
    (deleteForward 0 (⟨[⟨0, CellTag.stem⟩], 0, ∅⟩ : EditorState Unit)).cells = [] ∧
    (deleteForward 0 (⟨[⟨0, CellTag.stem⟩], 0, ∅⟩ : EditorState Unit)).activeCell = 0 ∧
    (deleteForward 0 (⟨[⟨0, CellTag.stem⟩], 0, ∅⟩ : EditorState Unit)).activeCell ≠ -1 := by
  refine ⟨by decide, by decide, by decide⟩

/-- C1 amended: `deleteForward` at `i < len` removes exactly the cell at
index `i` (the length decreases by one) and sets `activeCell = i`
unconditionally; when the deleted cell was not the last one this agrees with
`min(i, len - 1)` over the post-deletion sequence, but deleting the last cell
leaves `activeCell` equal to the new length (out of range), not clamped. -/
theorem deleteForward_spec {T : Type} (s : EditorState T) (i : Nat)
    (hi : i < s.cells.length) :
    (deleteForward i s).cells = s.cells.take i ++ s.cells.drop (i + 1) ∧
    (deleteForward i s).cells.length = s.cells.length - 1 ∧
    (deleteForward i s).activeCell = (i : Int) ∧
    (i < s.cells.length - 1 →
      (deleteForward i s).activeCell =
        min (i : Int) (((deleteForward i s).cells.length : Int) - 1)) := by
  have hr : spliceRemove1 s.cells (i : Int) = s.cells.take i ++ s.cells.drop (i + 1) :=
    spliceRemove1_ofNat _ _ (le_of_lt hi)
  have hlen : (spliceRemove1 s.cells (i : Int)).length = s.cells.length - 1 := by
    rw [hr]
    simp only [List.length_append, List.length_take, List.length_drop]
    omega
  refine ⟨hr, hlen, rfl, ?_⟩
  · intro h
    show (i : Int) = min (i : Int) (((spliceRemove1 s.cells (i : Int)).length : Int) - 1)
    rw [hlen]
    omega

/-- Witness for C1 (amended): deleting the first of two cells sets
`activeCell = 0 = min(0, newLen - 1)`. -/
theorem deleteForward_spec_witness :
    0 < ([⟨0, CellTag.stem⟩, ⟨1, CellTag.stem⟩] : List (Cell Unit)).length ∧
    (deleteForward 0
      (⟨[⟨0, CellTag.stem⟩, ⟨1, CellTag.stem⟩], 0, ∅⟩ : EditorState Unit)).activeCell = 0 :=
  ⟨by decide, (deleteForward_spec _ 0 (by decide)).2.2.1⟩

/-! ### Claim theorems: drop validation and command registry -/

/-- C7: when a drop's payloads are absent or not recognized as cell drag data
(`none`), or either id fails to resolve to an index in the current sequence,
`onDrop` performs no mutation at all: the state is returned unchanged. -/
theorem onDrop_stale_noop {T : Type} (s : EditorState T)
    (source target : Option CellDragData)
    (h : ∀ sd td, source = some sd → target = some td →
      findIndexById s.cells sd.cellId < 0 ∨ findIndexById s.cells td.cellId < 0) :
    onDrop s source target = s := by
  cases source with
  | none => cases target <;> rfl
  | some sd =>
    cases target with
    | none => rfl
    | some td =>
      have hd := h sd td rfl rfl
      show (if findIndexById s.cells sd.cellId < 0 ∨ findIndexById s.cells td.cellId < 0
        then s else _) = s
      rw [if_pos hd]

/-- Witness for C7: a drag whose source id `5` is stale (not in the sequence)
drops as a silent no-op. -/
theorem onDrop_stale_noop_witness :
    onDrop (⟨[⟨0, CellTag.stem⟩], 0, ∅⟩ : EditorState Unit)
      (some ⟨5, none⟩) (some ⟨0, some Edge.after⟩) = ⟨[⟨0, CellTag.stem⟩], 0, ∅⟩ :=
  onDrop_stale_noop _ _ _ (fun sd td hs ht => by cases hs; cases ht; decide)

/-- C9: the effective registry is the built-in rich-text "Text" constructor
followed by the caller-supplied constructors in order; the `k`-th insert
command completes by `addOrReplaceActiveCell` of the `k`-th constructor's
cell, and the `k`-th replace command for index `i` completes by
`replaceCellWith(i, ...)` of it. -/
theorem cellConstructors_commands_spec (T : Type) (isMac : Bool)
    (user : List (CellConstructor T)) (i k : Nat) :
    cellConstructors T isMac user = textCellConstructor T isMac :: user ∧
    (textCellConstructor T isMac).name = "Text" ∧
    (textCellConstructor T isMac).construct = newRichTextCell T ∧
    (insertCommands T isMac user)[k]? =
      ((cellConstructors T isMac user)[k]?).map (fun cc =>
        { name := cc.name, description := cc.description, shortcut := cc.shortcut,
          onComplete := fun fresh s => addOrReplaceActiveCell (cc.construct fresh) s }) ∧
    (replaceCommands T isMac user i)[k]? =
      ((cellConstructors T isMac user)[k]?).map (fun cc =>
        { name := cc.name, description := cc.description, shortcut := cc.shortcut,
          onComplete := fun fresh s => replaceCellWith (i : Int) (cc.construct fresh) s }) := by
  refine ⟨rfl, rfl, rfl, ?_, ?_⟩
  · rw [insertCommands, List.getElem?_map]
  · rw [replaceCommands, List.getElem?_map]

/-! ### Claim theorems: addOrReplaceActiveCell -/

/-- C3 counterexample: with a single rich-text cell and the (reachable,
e.g. after a `deleteForward` at the end) out-of-range `activeCell = 1`,
`addOrReplaceActiveCell` appends the new cell at index `1` but advances
`activeCell` to `2`, so the new cell is *not* at the new `activeCell`
position, contrary to the claim's out-of-range case. -/
theorem addOrReplaceActiveCell_counterexample :
    (addOrReplaceActiveCell (⟨5, CellTag.stem⟩ : Cell Unit)
      ⟨[⟨0, CellTag.richText ""⟩], 1, ∅⟩).cells =
      [⟨0, CellTag.richText ""⟩, ⟨5, CellTag.stem⟩] ∧
    (addOrReplaceActiveCell (⟨5, CellTag.stem⟩ : Cell Unit)
      ⟨[⟨0, CellTag.richText ""⟩], 1, ∅⟩).activeCell = 2 ∧
    (addOrReplaceActiveCell (⟨5, CellTag.stem⟩ : Cell Unit)
      ⟨[⟨0, CellTag.richText ""⟩], 1, ∅⟩).cells[(2 : Nat)]? ≠
      some ⟨5, CellTag.stem⟩ := by
  refine ⟨by decide, by decide, by decide⟩

/-- C3 amended: on an active `stem` cell, `addOrReplaceActiveCell` keeps the
length and `activeCell`, replacing exactly the active index's cell; on an
active rich-text/formal cell or with no active cell, it increases the length
by one and advances `activeCell` by one, the new cell landing at the new
`activeCell` position whenever the prior `activeCell` was `-1` or in range
(an out-of-range `activeCell` still gains one, but the insertion is clamped
to the end of the sequence, behind the new `activeCell`). -/
theorem addOrReplaceActiveCell_spec {T : Type} (s : EditorState T) (cell : Cell T) :
    (∀ c, cellAtActive s = some c → c.tag = CellTag.stem →
      (addOrReplaceActiveCell cell s).cells.length = s.cells.length ∧
      (addOrReplaceActiveCell cell s).activeCell = s.activeCell ∧
      (addOrReplaceActiveCell cell s).cells[s.activeCell.toNat]? = some cell ∧
      ∀ j : Nat, j ≠ s.activeCell.toNat →
        (addOrReplaceActiveCell cell s).cells[j]? = s.cells[j]?) ∧
    ((∀ c, cellAtActive s = some c → c.tag ≠ CellTag.stem) →
      (addOrReplaceActiveCell cell s).cells.length = s.cells.length + 1 ∧
      (addOrReplaceActiveCell cell s).activeCell = s.activeCell + 1 ∧
      ((s.activeCell = -1 ∨ (0 ≤ s.activeCell ∧ s.activeCell < s.cells.length)) →
        (addOrReplaceActiveCell cell s).cells[(s.activeCell + 1).toNat]? = some cell) ∧
      ((s.cells.length : Int) ≤ s.activeCell →
        (addOrReplaceActiveCell cell s).cells[s.cells.length]? = some cell ∧
        (s.cells.length : Int) < (addOrReplaceActiveCell cell s).activeCell)) := by
  constructor
  · intro c hc htag
    have h0 : ¬ s.activeCell < 0 := by
      intro hlt
      simp [cellAtActive, hlt] at hc
    have hc' : s.cells[s.activeCell.toNat]? = some c := by
      simpa [cellAtActive, h0] using hc
    obtain ⟨hlt, -⟩ := List.getElem?_eq_some.mp hc'
    have hred : addOrReplaceActiveCell cell s = replaceCellWith s.activeCell cell s := by
      unfold addOrReplaceActiveCell
      rw [hc]
      show (match c.tag with
        | CellTag.formal _ => addAfterActiveCell cell s
        | CellTag.richText _ => addAfterActiveCell cell s
        | CellTag.stem => replaceCellWith s.activeCell cell s) =
        replaceCellWith s.activeCell cell s
      rw [htag]
    have hcells : (addOrReplaceActiveCell cell s).cells =
        s.cells.set s.activeCell.toNat cell := by
      rw [hred]
      simp [replaceCellWith, not_lt.mp h0]
    refine ⟨?_, ?_, ?_, ?_⟩
    · rw [hcells, List.length_set]
    · rw [hred]
      rfl
    · rw [hcells]
      exact List.getElem?_set_eq_of_lt cell hlt
    · intro j hj
      rw [hcells]
      exact List.getElem?_set_ne (Ne.symm hj)
  · intro hns
    have hred : addOrReplaceActiveCell cell s = addAfterActiveCell cell s := by
      unfold addOrReplaceActiveCell
      cases hh : cellAtActive s with
      | none => rfl
      | some c =>
        have htag := hns c hh
        show (match c.tag with
          | CellTag.formal _ => addAfterActiveCell cell s
          | CellTag.richText _ => addAfterActiveCell cell s
          | CellTag.stem => replaceCellWith s.activeCell cell s) =
          addAfterActiveCell cell s
        cases hc2 : c.tag with
        | stem => exact absurd hc2 htag
        | richText content => rfl
        | formal content => rfl
    refine ⟨?_, ?_, ?_, ?_⟩
    · rw [hred]
      show (spliceInsert s.cells (s.activeCell + 1) cell).length = _
      rw [spliceInsert_length]
    · rw [hred]
      rfl
    · intro hrange
      have hge : 0 ≤ s.activeCell + 1 := by
        rcases hrange with h | ⟨h1, h2⟩ <;> omega
      have hn : (s.activeCell + 1).toNat ≤ s.cells.length := by
        rcases hrange with h | ⟨h1, h2⟩ <;> omega
      have hcast : (((s.activeCell + 1).toNat : Nat) : Int) = s.activeCell + 1 :=
        Int.toNat_of_nonneg hge
      rw [hred]
      show (spliceInsert s.cells (s.activeCell + 1) cell)[(s.activeCell + 1).toNat]? =
        some cell
      rw [← hcast]
      exact spliceInsert_getElem_self _ _ _ hn
    · intro hout
      constructor
      · rw [hred]
        show (spliceInsert s.cells (s.activeCell + 1) cell)[s.cells.length]? = some cell
        rw [spliceInsert_of_ge s.cells (s.activeCell + 1) cell (by omega),
          List.getElem?_append_right (le_refl _)]
        simp
      · rw [hred]
        show (s.cells.length : Int) < s.activeCell + 1
        omega

/-- Witness for C3 (amended): replacing the only cell (a stem) keeps the
length; inserting next to an active rich-text cell grows it and the new cell
lands at the new `activeCell`; with the out-of-range `activeCell = 1` on a
one-cell notebook the new cell is clamped to the end (index `1`), strictly
behind the new `activeCell`. -/
theorem addOrReplaceActiveCell_spec_witness :
    (addOrReplaceActiveCell (⟨5, CellTag.richText ""⟩ : Cell Unit)
      ⟨[⟨0, CellTag.stem⟩], 0, ∅⟩).cells.length = 1 ∧
    (addOrReplaceActiveCell (⟨5, CellTag.stem⟩ : Cell Unit)
      ⟨[⟨7, CellTag.richText ""⟩], 0, ∅⟩).cells.length = 2 ∧
    (addOrReplaceActiveCell (⟨5, CellTag.stem⟩ : Cell Unit)
      ⟨[⟨7, CellTag.richText ""⟩], 0, ∅⟩).cells[(1 : Nat)]? =
      some ⟨5, CellTag.stem⟩ ∧
    (addOrReplaceActiveCell (⟨5, CellTag.stem⟩ : Cell Unit)
      ⟨[⟨0, CellTag.richText ""⟩], 1, ∅⟩).cells[(1 : Nat)]? =
      some ⟨5, CellTag.stem⟩ ∧
    (1 : Int) < (addOrReplaceActiveCell (⟨5, CellTag.stem⟩ : Cell Unit)
      ⟨[⟨0, CellTag.richText ""⟩], 1, ∅⟩).activeCell := by
  have h1 := (addOrReplaceActiveCell_spec (⟨[⟨0, CellTag.stem⟩], 0, ∅⟩ : EditorState Unit)
    ⟨5, CellTag.richText ""⟩).1 ⟨0, CellTag.stem⟩ (by decide) rfl
  have h2 := (addOrReplaceActiveCell_spec
    (⟨[⟨7, CellTag.richText ""⟩], 0, ∅⟩ : EditorState Unit) ⟨5, CellTag.stem⟩).2
    (fun c hc => by
      rw [show cellAtActive (⟨[⟨7, CellTag.richText ""⟩], 0, ∅⟩ : EditorState Unit) =
        some ⟨7, CellTag.richText ""⟩ from rfl] at hc
      cases hc
      decide)
  have h3 := (addOrReplaceActiveCell_spec
    (⟨[⟨0, CellTag.richText ""⟩], 1, ∅⟩ : EditorState Unit) ⟨5, CellTag.stem⟩).2
    (fun c hc => by
      rw [show cellAtActive (⟨[⟨0, CellTag.richText ""⟩], 1, ∅⟩ : EditorState Unit) =
        none from rfl] at hc
      cases hc)
  have h3out := h3.2.2.2 (by decide)
  refine ⟨?_, ?_, ?_, ?_, ?_⟩
  · simpa using h1.1
  · simpa using h2.1
  · simpa using h2.2.2.1 (Or.inr (by constructor <;> decide))
  · simpa using h3out.1
  · simpa using h3out.2

/-! ### Claim theorems: drag reorder -/

theorem findIndexById_append {T : Type} (l₁ l₂ : List (Cell T)) (c : Cell T)
    (h : c.id ∉ l₁.map Cell.id) :
    findIndexById (l₁ ++ c :: l₂) c.id = (l₁.length : Int) := by
  induction l₁ with
  | nil => simp [findIndexById]
  | cons a tl ih =>
    simp only [List.map_cons, List.mem_cons, not_or] at h
    obtain ⟨h1, h2⟩ := h
    have ha : ¬ a.id = c.id := fun he => h1 he.symm
    rw [List.cons_append]
    show (if a.id = c.id then (0 : Int)
      else
        if findIndexById (tl ++ c :: l₂) c.id < 0 then -1
        else findIndexById (tl ++ c :: l₂) c.id + 1) = ((a :: tl).length : Int)
    rw [if_neg ha, ih h2, if_neg (by omega)]
    simp only [List.length_cons]
    omega

theorem findIndexById_of_getElem {T : Type} (l : List (Cell T)) (k : Nat) (c : Cell T)
    (hnd : (l.map Cell.id).Nodup) (hc : l[k]? = some c) :
    findIndexById l c.id = (k : Int) := by
  obtain ⟨hk, hget⟩ := List.getElem?_eq_some.mp hc
  have hdec : l = l.take k ++ c :: l.drop (k + 1) := by
    conv_lhs => rw [← List.take_append_drop k l]
    rw [List.drop_eq_getElem_cons hk, hget]
  have hmem : c.id ∉ (l.take k).map Cell.id := by
    have h1 := hnd
    rw [hdec, List.map_append, List.map_cons, List.nodup_append] at h1
    intro hm
    exact h1.2.2 hm (List.mem_cons_self _ _)
  have h := findIndexById_append (l.take k) (l.drop (k + 1)) c hmem
  rw [← hdec] at h
  rwa [List.length_take, min_eq_left hk.le] at h

theorem getReorderDestinationIndex_le (a b len : Nat) (e : Edge) (hab : a ≠ b)
    (ha : a < len) (hb : b < len) :
    getReorderDestinationIndex a b (some e) ≤ len - 1 := by
  unfold getReorderDestinationIndex
  rw [if_neg hab]
  cases e with
  | before =>
    show (if a < b then b - 1 else b) ≤ len - 1
    split <;> omega
  | after =>
    show (if a < b then b else b + 1) ≤ len - 1
    split <;> omega

/-- C2: dropping the cell at resolvable source index `a` onto the cell at
target index `b` (`a ≠ b`) with edge `e` yields a sequence of the same
length in which the moved cell sits exactly at the destination index
computed from `(a, b, e)`, its id occurs exactly once (no duplication, no
loss), and all other cells keep their pairwise relative order (the
subsequence of cells other than the moved one is unchanged); this holds for
all four relative orderings of `a`, `b`, and the edge. -/
theorem onDrop_reorder_spec {T : Type} (s : EditorState T) (a b : Nat) (e : Edge)
    (ca cb : Cell T)
    (hnd : (s.cells.map Cell.id).Nodup) (hab : a ≠ b)
    (hca : s.cells[a]? = some ca) (hcb : s.cells[b]? = some cb) :
    (onDrop s (some ⟨ca.id, none⟩) (some ⟨cb.id, some e⟩)).cells.length =
      s.cells.length ∧
    (onDrop s (some ⟨ca.id, none⟩)
        (some ⟨cb.id, some e⟩)).cells[getReorderDestinationIndex a b (some e)]? =
      some ca ∧
    ((onDrop s (some ⟨ca.id, none⟩) (some ⟨cb.id, some e⟩)).cells.map Cell.id).count
      ca.id = 1 ∧
    (onDrop s (some ⟨ca.id, none⟩) (some ⟨cb.id, some e⟩)).cells.filter
        (fun x => x.id ≠ ca.id) =
      s.cells.filter (fun x => x.id ≠ ca.id) := by
  obtain ⟨haLen, hgetA⟩ := List.getElem?_eq_some.mp hca
  obtain ⟨hbLen, hgetB⟩ := List.getElem?_eq_some.mp hcb
  have hsrc : findIndexById s.cells ca.id = (a : Int) :=
    findIndexById_of_getElem s.cells a ca hnd hca
  have htgt : findIndexById s.cells cb.id = (b : Int) :=
    findIndexById_of_getElem s.cells b cb hnd hcb
  set D := getReorderDestinationIndex a b (some e) with hDdef
  have hred : onDrop s (some ⟨ca.id, none⟩) (some ⟨cb.id, some e⟩) =
      { s with cells := spliceInsert (spliceRemove1 s.cells (a : Int)) (D : Int) ca } := by
    show (if findIndexById s.cells ca.id < 0 ∨ findIndexById s.cells cb.id < 0 then s
        else { s with
                cells := spliceInsert (spliceRemove1 s.cells (findIndexById s.cells ca.id))
                          ((getReorderDestinationIndex (findIndexById s.cells ca.id).toNat
                              (findIndexById s.cells cb.id).toNat (some e) : Nat) : Int)
                          ((s.cells[(findIndexById s.cells ca.id).toNat]?).getD
                            (newStemCell T 0)) }) = _
    rw [hsrc, htgt, if_neg (by omega)]
    simp only [Int.toNat_ofNat]
    rw [hca]
    rfl
  have hrem : spliceRemove1 s.cells (a : Int) = s.cells.take a ++ s.cells.drop (a + 1) :=
    spliceRemove1_ofNat _ _ haLen.le
  have hremLen : (spliceRemove1 s.cells (a : Int)).length = s.cells.length - 1 := by
    rw [hrem]
    simp only [List.length_append, List.length_take, List.length_drop]
    omega
  have hDle : D ≤ (spliceRemove1 s.cells (a : Int)).length := by
    have h := getReorderDestinationIndex_le a b s.cells.length e hab haLen hbLen
    rw [hremLen]
    omega
  have hdecA : s.cells = s.cells.take a ++ ca :: s.cells.drop (a + 1) := by
    conv_lhs => rw [← List.take_append_drop a s.cells]
    rw [List.drop_eq_getElem_cons haLen, hgetA]
  have hnotmemA : ca.id ∉ (s.cells.take a).map Cell.id ∧
      ca.id ∉ (s.cells.drop (a + 1)).map Cell.id := by
    have h1 := hnd
    rw [hdecA, List.map_append, List.map_cons, List.nodup_append] at h1
    exact ⟨fun hm => h1.2.2 hm (List.mem_cons_self _ _), (List.nodup_cons.mp h1.2.1).1⟩
  have hnotmemR : ca.id ∉ (spliceRemove1 s.cells (a : Int)).map Cell.id := by
    rw [hrem, List.map_append, List.mem_append]
    rintro (hm | hm)
    · exact hnotmemA.1 hm
    · exact hnotmemA.2 hm
  have hcells : (onDrop s (some ⟨ca.id, none⟩) (some ⟨cb.id, some e⟩)).cells =
      (spliceRemove1 s.cells (a : Int)).take D ++
        ca :: (spliceRemove1 s.cells (a : Int)).drop D := by
    rw [hred]
    show spliceInsert (spliceRemove1 s.cells (a : Int)) (D : Int) ca = _
    exact spliceInsert_ofNat _ _ _ hDle
  refine ⟨?_, ?_, ?_, ?_⟩
  · rw [hred]
    show (spliceInsert (spliceRemove1 s.cells (a : Int)) (D : Int) ca).length = _
    rw [spliceInsert_length, hremLen]
    omega
  · rw [hred]
    show (spliceInsert (spliceRemove1 s.cells (a : Int)) (D : Int) ca)[D]? = some ca
    exact spliceInsert_getElem_self _ _ _ hDle
  · rw [hcells, List.map_append, List.map_cons, List.count_append,
      List.count_cons_self]
    have ht0 : (((spliceRemove1 s.cells (a : Int)).take D).map Cell.id).count ca.id = 0 :=
      List.count_eq_zero.mpr (fun hm => hnotmemR (by
        rw [List.map_take] at hm
        exact List.take_subset _ _ hm))
    have hd0 : (((spliceRemove1 s.cells (a : Int)).drop D).map Cell.id).count ca.id = 0 :=
      List.count_eq_zero.mpr (fun hm => hnotmemR (by
        rw [List.map_drop] at hm
        exact List.drop_subset _ _ hm))
    rw [ht0, hd0]
  · have hfc1 : List.filter (fun x => decide (x.id ≠ ca.id))
        (ca :: (spliceRemove1 s.cells (a : Int)).drop D) =
        List.filter (fun x => decide (x.id ≠ ca.id))
          ((spliceRemove1 s.cells (a : Int)).drop D) :=
      List.filter_cons_of_neg (by simp)
    have hfc2 : List.filter (fun x => decide (x.id ≠ ca.id))
        (ca :: s.cells.drop (a + 1)) =
        List.filter (fun x => decide (x.id ≠ ca.id)) (s.cells.drop (a + 1)) :=
      List.filter_cons_of_neg (by simp)
    rw [hcells, List.filter_append, hfc1, ← List.filter_append, List.take_append_drop,
      hrem]
    conv_rhs => rw [hdecA]
    rw [List.filter_append, List.filter_append, hfc2]

/-- Witness for C2: in a three-cell notebook, dragging the first cell to the
`after` edge of the last lands it at destination index `2` exactly once. -/
theorem onDrop_reorder_spec_witness :
    (([⟨10, CellTag.stem⟩, ⟨11, CellTag.stem⟩, ⟨12, CellTag.stem⟩] :
        List (Cell Unit)).map Cell.id).Nodup ∧
    ((onDrop (⟨[⟨10, CellTag.stem⟩, ⟨11, CellTag.stem⟩, ⟨12, CellTag.stem⟩], 0, ∅⟩ :
          EditorState Unit)
        (some ⟨10, none⟩) (some ⟨12, some Edge.after⟩)).cells.map Cell.id).count 10 = 1 :=
  ⟨by decide,
    (onDrop_reorder_spec
      (⟨[⟨10, CellTag.stem⟩, ⟨11, CellTag.stem⟩, ⟨12, CellTag.stem⟩], 0, ∅⟩ :
        EditorState Unit)
      0 2 Edge.after ⟨10, CellTag.stem⟩ ⟨12, CellTag.stem⟩
      (by decide) (by decide) (by decide) (by decide)).2.2.1⟩
